import Mathlib

/-!
Shallow embedding of the core of cargo-stitch (src/wrapper.rs, src/stitch.rs,
src/fs.rs, src/error.rs) and proofs about the claims of its specification.

Strings are modelled as lists of characters (`Str`), matching Rust `str`
operations used by the code (UTF-8 byte order coincides with code-point order,
so lexicographic comparison of character lists models Rust byte-wise string
comparison).  Filesystem paths handed around as strings are assumed
normalized: absolute, `/`-separated, no trailing separator — which is what
cargo supplies in `CARGO_MANIFEST_DIR` and what the orchestrator supplies in
the workspace-root variable.
-/

set_option maxHeartbeats 1000000

abbrev Str := List Char

/-- Model of Rust `str::contains` for a pattern string: true iff `pat` occurs
as a contiguous substring of `s` (the empty pattern always occurs). -/
def containsSub (s pat : Str) : Bool :=
  match s with
  | [] => pat.isEmpty
  | _ :: rest => pat.isPrefixOf s || containsSub rest pat

/-- Fuel-indexed worker for the model of Rust `str::replace`.  The fuel only
serves structural termination; `replaceAllAux_congr` shows the result is
fuel-independent once the fuel exceeds the length of `s`. -/
def replaceAllAux (fuel : Nat) (s pat rep : Str) : Str :=
  match fuel with
  | 0 => s
  | fuel + 1 =>
    match s with
    | [] => if pat = [] then rep else []
    | c :: rest =>
      if pat = [] then rep ++ (c :: rest).flatMap (fun x => [x] ++ rep)
      else if pat.isPrefixOf (c :: rest) then
        rep ++ replaceAllAux fuel ((c :: rest).drop pat.length) pat rep
      else
        c :: replaceAllAux fuel rest pat rep

/-- Model of Rust `str::replace`: replace every non-overlapping occurrence of
`pat` in `s` by `rep`, scanning left-to-right.  As in Rust, an empty pattern
matches at every character boundary. -/
def replaceAll (s pat rep : Str) : Str :=
  replaceAllAux (s.length + 1) s pat rep

/-- Model of Rust `str::replacen` with count 1: replace the first occurrence
of `pat` in `s` by `rep` (an empty pattern matches at the start). -/
def replaceFirst (s pat rep : Str) : Str :=
  match s with
  | [] => if pat = [] then rep else []
  | c :: rest =>
    if pat.isPrefixOf (c :: rest) then rep ++ (c :: rest).drop pat.length
    else c :: replaceFirst rest pat rep

/-- Model of Rust `str::trim_end_matches('/')`: drop every trailing slash. -/
def trimEndSlashes (s : Str) : Str :=
  (s.reverse.dropWhile (fun c => c = '/')).reverse

/-- Model of `Path::strip_prefix` on normalized `/`-separated path strings:
stripping `root` from `p` succeeds iff `p` equals `root` or extends it across
a separator boundary, and returns the remainder. -/
def stripPrefixPath (root p : Str) : Option Str :=
  if p = root then some []
  else if (root ++ ['/']).isPrefixOf p then some (p.drop (root.length + 1))
  else none

/-- The constant PATCHED_CRATES_DIR of src/wrapper.rs. -/
def PATCHED_CRATES_DIR : Str := "cargo-stitch".data

/-- The function patched_dir of src/wrapper.rs:
workspace_root.join("target").join(PATCHED_CRATES_DIR).join(pkg_name). -/
def patchedDir (pkgName workspaceRoot : Str) : Str :=
  workspaceRoot ++ '/' :: "target".data ++ '/' :: PATCHED_CRATES_DIR ++ '/' :: pkgName

/-- The value relative_manifest_prefix of src/wrapper.rs run_wrapper:
manifest_dir.strip_prefix(workspace_root) followed by a trailing slash;
None when the manifest dir does not lie under the workspace root. -/
def relativeManifestSlash (workspaceRoot manifestDir : Str) : Option Str :=
  (stripPrefixPath workspaceRoot manifestDir).map (fun p => p ++ ['/'])

/-- The per-argument rewrite of src/wrapper.rs run_wrapper (rewritten_args):
first try absolute replacement of the manifest dir by the staged dir; if that
changed nothing and the relative form exists and the whole argument starts
with it, replace its first occurrence (without the trailing slash) by the
staged dir; otherwise keep the argument. -/
def rewriteArg (manifestDir patchedDirStr : Str) (relSlash : Option Str) (arg : Str) : Str :=
  let result := replaceAll arg manifestDir patchedDirStr
  if result ≠ arg then result
  else
    match relSlash with
    | some rp =>
      if rp.isPrefixOf arg then replaceFirst arg (trimEndSlashes rp) patchedDirStr
      else arg
    | none => arg

/-- The full argument rewrite of run_wrapper: every argument independently. -/
def rewriteArgs (manifestDir workspaceRoot pkgName : Str) (args : List Str) : List Str :=
  args.map
    (rewriteArg manifestDir (patchedDir pkgName workspaceRoot)
      (relativeManifestSlash workspaceRoot manifestDir))

/-!
Model of src/stitch.rs: the Stitch tagged union, its classification from a
file path, the external commands it runs, and ordered application.
-/

/-- The Stitch enum of src/stitch.rs: a diff patch or an ast-grep rule,
each carrying the path of its source file. -/
inductive Stitch where
  | patch (path : Str)
  | sgRule (path : Str)
deriving DecidableEq, Repr

/-- The error kinds of src/error.rs raised by Stitch::apply, each carrying
the offending file path (PatchFailed and AstGrepFailed). -/
inductive StitchError where
  | patchFailed (file : Str)
  | astGrepFailed (file : Str)
deriving DecidableEq, Repr

/-- The source file path carried by a Stitch. -/
def Stitch.file : Stitch → Str
  | .patch f => f
  | .sgRule f => f

/-- The error that Stitch::apply returns when the external engine for this
stitch exits with a non-zero status. -/
def Stitch.errOf : Stitch → StitchError
  | .patch f => .patchFailed f
  | .sgRule f => .astGrepFailed f

/-- The text after the final path separator, modelling `Path::file_name` on
a path that names an ordinary directory entry. -/
def fileName (p : Str) : Str :=
  (p.reverse.takeWhile (fun c => ¬ c = '/')).reverse

/-- The text after the last dot of a file name, or none when the name has no
dot past its first character; worker for the model of `Path::extension`. -/
def lastDotSplit : Str → Option Str
  | [] => none
  | c :: rest =>
    match lastDotSplit rest with
    | some e => some e
    | none => if c = '.' then some rest else none

/-- Model of Rust `Path::extension`: the portion of the file name after its
last dot, where a dot in first position alone does not count (a leading-dot
name such as .gitignore has no extension). -/
def extension (p : Str) : Option Str :=
  match fileName p with
  | [] => none
  | _ :: rest => lastDotSplit rest

/-- Stitch::from_path of src/stitch.rs: classify a file by extension alone;
.patch gives Patch, .yaml or .yml gives SgRule, anything else gives none. -/
def Stitch.fromPath (p : Str) : Option Stitch :=
  match extension p with
  | some e =>
    if e = "patch".data then some (.patch p)
    else if e = "yaml".data ∨ e = "yml".data then some (.sgRule p)
    else none
  | none => none

/-- The external command run by Stitch::apply of src/stitch.rs for a stitch
applied in directory `dir`: program name and full argument list, exactly as
built by the Command invocations in the source. -/
def stitchCommand (s : Stitch) (dir : Str) : Str × List Str :=
  match s with
  | .patch file =>
    ("patch".data, ["-s".data, "-p1".data, "-i".data, file, "-d".data, dir])
  | .sgRule file =>
    ("sg".data, ["scan".data, "-r".data, file, "--update-all".data, dir])

/-- Flags of the diff-application engine (GNU patch) that make it reject a
hunk on any context mismatch instead of fuzzy-matching: a fuzz factor of
zero, written -F0 or --fuzz=0, or the separated forms -F 0 / --fuzz 0. -/
def strictPatchFlags : List Str → Bool
  | [] => false
  | a :: rest =>
    a = "-F0".data || a = "--fuzz=0".data ||
    ((a = "-F".data || a = "--fuzz".data) && rest.head? = some "0".data) ||
    strictPatchFlags rest

/-- Model of one Stitch::apply call (src/stitch.rs): the external engine,
abstracted as a function from the stitch and the current staged-directory
state to the new state and its exit status, is run once; a non-zero exit
(false) yields the error naming the stitch's own file. -/
def Stitch.applyModel {σ : Type} (engine : Stitch → σ → σ × Bool) (s : Stitch) (d : σ) :
    σ × Option StitchError :=
  let r := engine s d
  (r.1, if r.2 then none else some (Stitch.errOf s))

/-- Model of StitchSet::apply (src/stitch.rs): apply the stitches in list
order, stopping at the first failure.  The first component records which
stitches were applied successfully, the second the resulting staged-directory
state, the third the error of the failing stitch, if any. -/
def applyAllTrace {σ : Type} (engine : Stitch → σ → σ × Bool) :
    List Stitch → σ → List Stitch × σ × Option StitchError
  | [], d => ([], d, none)
  | s :: rest, d =>
    let r := Stitch.applyModel engine s d
    match r.2 with
    | none =>
      let q := applyAllTrace engine rest r.1
      (s :: q.1, q.2)
    | some e => ([], r.1, some e)

/-!
Model of StitchSet::discover_all (src/stitch.rs).  The filesystem inputs are
given as data: the stitches directory either is not a directory at all, or
holds a list of entries, each with the result of querying its file type and
the result of listing the files inside it.  Read failures are represented by
Except errors in the corresponding position.
-/

/-- One immediate entry of the stitches directory as discover_all sees it:
its name, the result of entry.file_type().is_dir(), and the result of
reading the names inside it. -/
structure SubdirEntry where
  name : Str
  isDirRes : Except Unit Bool
  filesRes : Except Unit (List Str)
deriving Repr

/-- The stitches directory as discover_all sees it: its path, whether it is
a directory at all, and the result of reading its entries. -/
structure StitchesDir where
  path : Str
  isDir : Bool
  entriesRes : Except Unit (List SubdirEntry)
deriving Repr

/-- Byte-lexicographic comparison of character lists, modelling the ordering
Rust uses when sorting paths and file names of one directory. -/
def strLe : Str → Str → Bool
  | [], _ => true
  | _ :: _, [] => false
  | a :: s, b :: t => if a = b then strLe s t else decide (a < b)

/-- Insert an element into a sorted list, before the first element it
compares at-or-below; worker for the model of Rust slice sorting. -/
def insertSorted {α : Type} (le : α → α → Bool) (a : α) : List α → List α
  | [] => [a]
  | b :: l => if le a b then a :: b :: l else b :: insertSorted le a l

/-- Model of Rust stable slice sorting (Vec::sort / sort_by_key) as a stable
insertion sort: for a total transitive comparator its output, like that of
any stable sort, is uniquely determined, so this denotes exactly what the
source's sort calls produce. -/
def sortBy {α : Type} (le : α → α → Bool) : List α → List α
  | [] => []
  | a :: l => insertSorted le a (sortBy le l)

/-- The per-package stitch list built by the discover_all loop body: the
full paths of the files of one package subdirectory, sorted, classified by
Stitch::from_path, keeping only the recognized ones. -/
def entryStitches (base pkgName : Str) (files : List Str) : List Stitch :=
  (sortBy strLe (files.map (fun f => base ++ '/' :: pkgName ++ '/' :: f))).filterMap
    Stitch.fromPath

/-- The loop of StitchSet::discover_all over the (already sorted) entries:
skip non-directories, read each package directory, and record its stitches
under the package name only when the list is non-empty.  Any read error
aborts the whole discovery. -/
def discoverLoop (base : Str) : List SubdirEntry → Except Unit (List (Str × List Stitch))
  | [] => .ok []
  | e :: rest =>
    match e.isDirRes with
    | .error u => .error u
    | .ok false => discoverLoop base rest
    | .ok true =>
      match e.filesRes with
      | .error u => .error u
      | .ok files =>
        match discoverLoop base rest with
        | .error u => .error u
        | .ok m =>
          let stitches := entryStitches base e.name files
          if stitches.isEmpty then .ok m else .ok ((e.name, stitches) :: m)

/-- StitchSet::discover_all of src/stitch.rs: an absent or non-directory
stitches directory yields an empty manifest at once; otherwise the entries
are read, sorted by file name, and folded by the discovery loop. -/
def discoverAll (d : StitchesDir) : Except Unit (List (Str × List Stitch)) :=
  if d.isDir then
    match d.entriesRes with
    | .error u => .error u
    | .ok entries => discoverLoop d.path (sortBy (fun a b => strLe a.name b.name) entries)
  else .ok []

/-!
Model of run_wrapper (src/wrapper.rs): the control flow that decides, from
the inherited environment, whether the invocation is a passthrough, a fatal
missing-variable error, or a stage-patch-rewrite-exec sequence.
-/

/-- The environment variables run_wrapper consults after finding a package
name.  CARGO_MANIFEST_DIR is ambient cargo state; the workspace-root and
stitch-manifest variables are the coordination state the orchestrator is
expected to have placed in the environment (the constants WORKSPACE_ROOT_ENV
and STITCH_MANIFEST_ENV). -/
inductive EnvVarName where
  | cargoManifestDir
  | workspaceRootVar
  | stitchManifestVar
deriving DecidableEq, Repr

/-- The slice of the process environment read by run_wrapper; none means the
variable is unset. -/
structure WrapperEnv where
  cargoPkgName : Option Str
  cargoManifestDir : Option Str
  workspaceRoot : Option Str
  stitchManifestJson : Option Str

/-- Everything run_wrapper can decide to do, as data: exec the unmodified
compiler with the original arguments (no staging, no patching), fail with
MissingEnvVar naming a variable, fail deserializing the manifest (an IoError
in the source), or stage the package, apply its stitches and exec the
compiler with the rewritten arguments. -/
inductive WrapperAction where
  | execUnmodified (args : List Str)
  | missingEnvVar (v : EnvVarName)
  | manifestParseError
  | stagePatchExec (pkgName manifestDir stagedDir : Str) (stitches : List Stitch)
      (args : List Str)
deriving DecidableEq, Repr

/-- Manifest lookup, modelling HashMap::get on the deserialized manifest. -/
def lookupManifest (pkgName : Str) (m : List (Str × List Stitch)) : Option (List Stitch) :=
  List.lookup pkgName m

/-- The decision structure of run_wrapper (src/wrapper.rs), with manifest
deserialization abstracted as `parse`: no package name or no manifest entry
means a passthrough exec of the unmodified compiler; a missing manifest-dir,
workspace-root or manifest variable is a fatal MissingEnvVar; otherwise the
package is staged, patched and the compiler is exec'd on rewritten
arguments. -/
def runWrapper (parse : Str → Option (List (Str × List Stitch))) (env : WrapperEnv)
    (rustcArgs : List Str) : WrapperAction :=
  match env.cargoPkgName with
  | none => .execUnmodified rustcArgs
  | some pkgName =>
  match env.cargoManifestDir with
  | none => .missingEnvVar .cargoManifestDir
  | some manifestDir =>
  match env.workspaceRoot with
  | none => .missingEnvVar .workspaceRootVar
  | some workspaceRoot =>
  match env.stitchManifestJson with
  | none => .missingEnvVar .stitchManifestVar
  | some manifestJson =>
  match parse manifestJson with
  | none => .manifestParseError
  | some manifest =>
  match lookupManifest pkgName manifest with
  | none => .execUnmodified rustcArgs
  | some stitches =>
    let staged := patchedDir pkgName workspaceRoot
    .stagePatchExec pkgName manifestDir staged stitches
      (rewriteArgs manifestDir workspaceRoot pkgName rustcArgs)

/-!
Model of the staging step of run_wrapper together with copy_dir_recursive of
src/fs.rs.  A filesystem is a list of files, each a path (as a list of name
components) with its contents; directories are implicit.
-/

abbrev FPath := List Str

abbrev FileSystem := List (FPath × Str)

/-- Model of fs::remove_dir_all: delete every file at or below `d` (on a
filesystem where `d` does not exist this removes nothing, matching the
exists-guard in run_wrapper). -/
def removeDirAll (d : FPath) (fs : FileSystem) : FileSystem :=
  fs.filter (fun e => !(d.isPrefixOf e.1))

/-- The directory names copy_dir_recursive of src/fs.rs skips at every level
of the recursion: build output and version control. -/
def excludedEntryName (n : Str) : Bool :=
  n = "target".data || n = ".git".data

/-- How copy_dir_recursive of src/fs.rs treats one file of the filesystem:
a file strictly below `src` whose src-relative path contains no excluded
component is copied to the same relative path below `dst`; any other file
contributes nothing to the copy. -/
def copyEntry (src dst : FPath) (e : FPath × Str) : Option (FPath × Str) :=
  if src.isPrefixOf e.1 ∧ src ≠ e.1 then
    if (e.1.drop src.length).any excludedEntryName then none
    else some (dst ++ e.1.drop src.length, e.2)
  else none

/-- Denotation of copy_dir_recursive of src/fs.rs on a filesystem whose
destination subtree is empty (which the staging step guarantees by removing
it first): every file strictly below `src` whose relative path contains no
excluded component is copied below `dst`; everything else is untouched. -/
def copyDirRecursive (src dst : FPath) (fs : FileSystem) : FileSystem :=
  fs ++ fs.filterMap (copyEntry src dst)

/-- The staging step of run_wrapper (src/wrapper.rs): remove the staged
directory if it exists, then copy the package source into it. -/
def stageDir (src dst : FPath) (fs : FileSystem) : FileSystem :=
  copyDirRecursive src dst (removeDirAll dst fs)

/-- One file of the filesystem viewed relative to directory `d`: its
d-relative path and contents when it lies below `d`, nothing otherwise. -/
def subEntry (d : FPath) (e : FPath × Str) : Option (FPath × Str) :=
  if d.isPrefixOf e.1 then some (e.1.drop d.length, e.2) else none

/-- The files below directory `d`, addressed relative to `d`. -/
def subtree (d : FPath) (fs : FileSystem) : FileSystem :=
  fs.filterMap (subEntry d)

/-- The filter selecting what copy_dir_recursive keeps of a source subtree:
the proper (non-root) relative paths with no excluded component. -/
def keepEntry (e : FPath × Str) : Option (FPath × Str) :=
  if e.1 ≠ [] ∧ e.1.any excludedEntryName = false then some e else none

/-!
Helper lemmas about the string model.
-/

theorem replaceAllAux_congr (pat rep : Str) :
    ∀ (f g : Nat) (s : Str), s.length < f → s.length < g →
      replaceAllAux f s pat rep = replaceAllAux g s pat rep := by
  intro f
  induction f with
  | zero => intro g s hf _; exact absurd hf (Nat.not_lt_zero _)
  | succ f ih =>
    intro g s hf hg
    cases g with
    | zero => exact absurd hg (Nat.not_lt_zero _)
    | succ g =>
      cases s with
      | nil => rfl
      | cons c rest =>
        simp only [replaceAllAux]
        by_cases hp : pat = []
        · simp [hp]
        · have hplen : 1 ≤ pat.length := by
            cases pat with
            | nil => exact absurd rfl hp
            | cons _ _ => simp
          simp only [hp, if_false]
          by_cases hm : pat.isPrefixOf (c :: rest) = true
          · have hlen : ((c :: rest).drop pat.length).length ≤ rest.length := by
              simp only [List.length_drop, List.length_cons]
              omega
            simp only [hm, if_true]
            rw [ih g _ (by simp at hf; omega) (by simp at hg; omega)]
          · simp only [Bool.not_eq_true] at hm
            simp only [hm, Bool.false_eq_true, if_false]
            rw [ih g rest (by simp at hf; omega) (by simp at hg; omega)]

theorem replaceAll_nil (pat rep : Str) :
    replaceAll [] pat rep = if pat = [] then rep else [] := rfl

theorem replaceAll_cons (c : Char) (rest pat rep : Str) :
    replaceAll (c :: rest) pat rep =
      if pat = [] then rep ++ (c :: rest).flatMap (fun x => [x] ++ rep)
      else if pat.isPrefixOf (c :: rest) then
        rep ++ replaceAll ((c :: rest).drop pat.length) pat rep
      else c :: replaceAll rest pat rep := by
  have h0 : replaceAll (c :: rest) pat rep
      = (if pat = [] then rep ++ (c :: rest).flatMap (fun x => [x] ++ rep)
         else if pat.isPrefixOf (c :: rest) then
           rep ++ replaceAllAux (rest.length + 1) ((c :: rest).drop pat.length) pat rep
         else c :: replaceAllAux (rest.length + 1) rest pat rep) := rfl
  rw [h0]
  by_cases hp : pat = []
  · simp [hp]
  · have hplen : 1 ≤ pat.length := by
      cases pat with
      | nil => exact absurd rfl hp
      | cons _ _ => simp
    simp only [hp, if_false]
    by_cases hm : pat.isPrefixOf (c :: rest) = true
    · have hlen : ((c :: rest).drop pat.length).length ≤ rest.length := by
        simp only [List.length_drop, List.length_cons]
        omega
      simp only [hm, if_true]
      congr 1
      show _ = replaceAllAux (((c :: rest).drop pat.length).length + 1) _ pat rep
      exact replaceAllAux_congr pat rep _ _ _ (by omega) (by omega)
    · simp only [Bool.not_eq_true] at hm
      simp only [hm, Bool.false_eq_true, if_false]
      rfl

theorem containsSub_nil_pat (s : Str) : containsSub s [] = true := by
  cases s <;> simp [containsSub, List.isPrefixOf]

theorem not_contains_ne_nil {s pat : Str} (h : containsSub s pat = false) : pat ≠ [] := by
  intro hp
  subst hp
  rw [containsSub_nil_pat] at h
  exact Bool.noConfusion h

theorem replaceAll_of_not_contains {s pat : Str} (rep : Str)
    (h : containsSub s pat = false) : replaceAll s pat rep = s := by
  induction s with
  | nil =>
    rw [replaceAll_nil]
    simp [not_contains_ne_nil h]
  | cons c rest ih =>
    have hp : pat ≠ [] := not_contains_ne_nil h
    simp only [containsSub, Bool.or_eq_false_iff] at h
    rw [replaceAll_cons]
    simp only [hp, if_false, h.1, Bool.false_eq_true, if_false]
    rw [ih h.2]

theorem isPrefixOf_true_iff {α : Type} [BEq α] [LawfulBEq α] {l₁ l₂ : List α} :
    l₁.isPrefixOf l₂ = true ↔ l₁ <+: l₂ :=
  List.isPrefixOf_iff_prefix

theorem rewriteArg_relSlash_none (manifestDir patchedDirStr arg : Str) :
    rewriteArg manifestDir patchedDirStr none arg
      = replaceAll arg manifestDir patchedDirStr := by
  unfold rewriteArg
  by_cases h : replaceAll arg manifestDir patchedDirStr = arg
  · simp [h]
  · simp [h]

theorem rewriteArg_unchanged (manifestDir patchedDirStr : Str) (relSlash : Option Str)
    (arg : Str) (habs : containsSub arg manifestDir = false)
    (hrel : ∀ rp, relSlash = some rp → rp.isPrefixOf arg = false) :
    rewriteArg manifestDir patchedDirStr relSlash arg = arg := by
  have h1 : replaceAll arg manifestDir patchedDirStr = arg :=
    replaceAll_of_not_contains _ habs
  unfold rewriteArg
  simp only [h1, ne_eq, not_true_eq_false, if_false]
  cases relSlash with
  | none => rfl
  | some rp => simp [hrel rp rfl]

/-- C10: the workspace-relative rewrite form fires only when the entire
argument starts with the package's slash-terminated workspace-relative path.
When the package's source directory is not under the workspace root, the
relative form is never attempted and only the absolute replacement runs;
when it is under the root, an argument that does not start with the relative
path — even one containing it after an option such as a --flag= stem — is
left unchanged whenever the absolute form found no occurrence either. -/
theorem relative_rewrite_only_at_argument_start
    (workspaceRoot manifestDir patchedDirStr arg : Str) :
    (relativeManifestSlash workspaceRoot manifestDir = none →
      rewriteArg manifestDir patchedDirStr (relativeManifestSlash workspaceRoot manifestDir)
          arg
        = replaceAll arg manifestDir patchedDirStr)
    ∧ (∀ rp, relativeManifestSlash workspaceRoot manifestDir = some rp →
        rp.isPrefixOf arg = false → containsSub arg manifestDir = false →
        rewriteArg manifestDir patchedDirStr (relativeManifestSlash workspaceRoot manifestDir)
            arg
          = arg) := by
  constructor
  · intro h
    rw [h, rewriteArg_relSlash_none]
  · intro rp hsome hpre habs
    refine rewriteArg_unchanged _ _ _ _ habs ?_
    intro rq hq
    rw [hsome] at hq
    cases hq
    exact hpre

/-- Witness for C10: with workspace root /ws and package dir /ws/config, the
relative form is config/ and the argument --flag=config/src/lib.rs, which
contains the relative path mid-argument but does not start with it, passes
through unchanged. -/
theorem relative_rewrite_only_at_argument_start_witness :
    relativeManifestSlash "/ws".data "/ws/config".data = some "config/".data
    ∧ rewriteArg "/ws/config".data (patchedDir "config".data "/ws".data)
        (relativeManifestSlash "/ws".data "/ws/config".data)
        "--flag=config/src/lib.rs".data
      = "--flag=config/src/lib.rs".data :=
  ⟨by decide,
    (relative_rewrite_only_at_argument_start "/ws".data "/ws/config".data
        (patchedDir "config".data "/ws".data) "--flag=config/src/lib.rs".data).2
      "config/".data (by decide) (by decide) (by decide)⟩

/-- C1 counterexample: the absolute-path matching form is not prefix-safe.
In the wrapper invocation for package foo (manifest dir /ws/foo, workspace
root /ws), the argument /ws/foobar/src/lib.rs — a path referring to the
distinct package foobar, whose directory name foo is a proper prefix of — is
rewritten by plain substring replacement to a path below the staged
directory area, so the claim that such a path is never rewritten fails. -/
theorem absolute_rewrite_not_prefix_safe :
    rewriteArg "/ws/foo".data (patchedDir "foo".data "/ws".data)
        (relativeManifestSlash "/ws".data "/ws/foo".data) "/ws/foobar/src/lib.rs".data
      = "/ws/target/cargo-stitch/foobar/src/lib.rs".data
    ∧ "/ws/target/cargo-stitch/foobar/src/lib.rs".data ≠ "/ws/foobar/src/lib.rs".data :=
  ⟨by decide, by decide⟩

/-- C1 amended: prefix-safety holds for the workspace-relative matching form.
Whenever the invocation's package has workspace-relative directory relA, and
an argument is rooted at the workspace-relative directory relB of another
package — relB at least as long as relA and not an extension of relA across
the mandatory trailing separator — and the absolute form found no occurrence
in the argument, the argument is left entirely unchanged. -/
theorem relative_rewrite_prefix_safe
    (workspaceRoot manifestDir patchedDirStr relA relB arg : Str)
    (hstrip : stripPrefixPath workspaceRoot manifestDir = some relA)
    (hlen : relA.length ≤ relB.length)
    (hsep : (relA ++ ['/']).isPrefixOf (relB ++ ['/']) = false)
    (habs : containsSub arg manifestDir = false)
    (harg : (relB ++ ['/']).isPrefixOf arg = true) :
    rewriteArg manifestDir patchedDirStr
      (relativeManifestSlash workspaceRoot manifestDir) arg = arg := by
  refine rewriteArg_unchanged _ _ _ _ habs ?_
  intro rp hrp
  have hrpe : rp = relA ++ ['/'] := by
    rw [relativeManifestSlash, hstrip] at hrp
    exact (Option.some_inj.mp hrp).symm
  subst hrpe
  cases hAp : (relA ++ ['/']).isPrefixOf arg with
  | false => rfl
  | true =>
    exfalso
    have h1 : (relA ++ ['/']) <+: arg := isPrefixOf_true_iff.mp hAp
    have h2 : (relB ++ ['/']) <+: arg := isPrefixOf_true_iff.mp harg
    have h3 : (relA ++ ['/']).length ≤ (relB ++ ['/']).length := by
      simp only [List.length_append, List.length_cons, List.length_nil]
      omega
    have h4 := List.prefix_of_prefix_length_le h1 h2 h3
    have h5 := isPrefixOf_true_iff.mpr h4
    rw [hsep] at h5
    exact Bool.noConfusion h5

/-- Witness for the amended C1: the invocation for package foo leaves the
argument foobar/src/lib.rs of package foobar untouched. -/
theorem relative_rewrite_prefix_safe_witness :
    rewriteArg "/ws/foo".data (patchedDir "foo".data "/ws".data)
        (relativeManifestSlash "/ws".data "/ws/foo".data) "foobar/src/lib.rs".data
      = "foobar/src/lib.rs".data :=
  relative_rewrite_prefix_safe "/ws".data "/ws/foo".data
    (patchedDir "foo".data "/ws".data) "foo".data "foobar".data "foobar/src/lib.rs".data
    (by decide) (by decide) (by decide) (by decide) (by decide)

/-- C2 counterexample: the diff-application engine is not invoked in strict
mode.  The concrete invocation built by Stitch::apply for a patch file runs
the engine with -s (silent) and -p1 only; no flag disabling fuzzy context
matching (a zero fuzz factor) is present, so the engine keeps its default
fuzz and does not reject on every context mismatch. -/
theorem diff_patch_invocation_not_strict :
    (stitchCommand (Stitch.patch "001-fix.patch".data) "/ws/target/cargo-stitch/foo".data).2
      = ["-s".data, "-p1".data, "-i".data, "001-fix.patch".data, "-d".data,
         "/ws/target/cargo-stitch/foo".data]
    ∧ strictPatchFlags
        (stitchCommand (Stitch.patch "001-fix.patch".data)
            "/ws/target/cargo-stitch/foo".data).2
      = false :=
  ⟨rfl, by decide⟩

/-- C2 amended: for every DiffPatch modification, apply invokes the external
diff-application engine as patch -s -p1 -i file -d dir (silent mode, default
fuzz — not strict), and a non-zero engine exit yields the
PatchApplicationFailed error carrying that patch file's path. -/
theorem diff_patch_failure_names_file {σ : Type} (engine : Stitch → σ → σ × Bool)
    (file dir : Str) (d : σ)
    (hfail : (engine (Stitch.patch file) d).2 = false) :
    stitchCommand (Stitch.patch file) dir
      = ("patch".data, ["-s".data, "-p1".data, "-i".data, file, "-d".data, dir])
    ∧ (Stitch.applyModel engine (Stitch.patch file) d).2
      = some (StitchError.patchFailed file) := by
  refine ⟨rfl, ?_⟩
  simp only [Stitch.applyModel, hfail, Bool.false_eq_true, if_false]
  rfl

/-- Witness for the amended C2 with an engine that always fails. -/
theorem diff_patch_failure_names_file_witness :
    stitchCommand (Stitch.patch "001-fix.patch".data) "/staged".data
      = ("patch".data, ["-s".data, "-p1".data, "-i".data, "001-fix.patch".data,
         "-d".data, "/staged".data])
    ∧ (Stitch.applyModel (fun _ (d : Nat) => (d, false))
          (Stitch.patch "001-fix.patch".data) 0).2
      = some (StitchError.patchFailed "001-fix.patch".data) :=
  diff_patch_failure_names_file (fun _ (d : Nat) => (d, false)) "001-fix.patch".data
    "/staged".data 0 rfl

theorem applyAllTrace_append_of_ok {σ : Type} (engine : Stitch → σ → σ × Bool)
    (xs : List Stitch) :
    ∀ (ys : List Stitch) (d d1 : σ), applyAllTrace engine xs d = (xs, d1, none) →
      applyAllTrace engine (xs ++ ys) d
        = (xs ++ (applyAllTrace engine ys d1).1, (applyAllTrace engine ys d1).2) := by
  induction xs with
  | nil =>
    intro ys d d1 h
    simp only [applyAllTrace] at h
    cases h
    simp [applyAllTrace]
  | cons s rest ih =>
    intro ys d d1 h
    simp only [applyAllTrace] at h ⊢
    cases he : (Stitch.applyModel engine s d).2 with
    | some e =>
      rw [he] at h
      simp at h
    | none =>
      rw [he] at h
      simp only [List.cons_append, List.append_eq]
      have h1 : (applyAllTrace engine rest (Stitch.applyModel engine s d).1).1 = rest := by
        have := congrArg Prod.fst h
        simpa using this
      have h2 : applyAllTrace engine rest (Stitch.applyModel engine s d).1
          = (rest, d1, none) := by
        have := congrArg Prod.snd h
        simp at this
        exact Prod.ext h1 this
      rw [ih ys _ d1 h2]

/-- C3: StitchSet::apply applies modifications strictly in list order and
stops at the first failure.  If every stitch of the prefix succeeds (carrying
the staged state from d0 to d1) and the next stitch's engine run exits
non-zero, the whole application reports exactly that stitch's error, the
applied trace is exactly the prefix, and the stitches after the failing one
are never invoked: the outcome is the same for every tail. -/
theorem stitchset_apply_stops_at_first_failure {σ : Type}
    (engine : Stitch → σ → σ × Bool) (pre post : List Stitch) (s : Stitch) (d0 d1 : σ)
    (hpre : applyAllTrace engine pre d0 = (pre, d1, none))
    (hfail : (engine s d1).2 = false) :
    applyAllTrace engine (pre ++ s :: post) d0
      = (pre, (engine s d1).1, some (Stitch.errOf s)) := by
  rw [applyAllTrace_append_of_ok engine pre (s :: post) d0 d1 hpre]
  have hs : applyAllTrace engine (s :: post) d1
      = ([], (engine s d1).1, some (Stitch.errOf s)) := by
    simp only [applyAllTrace, Stitch.applyModel, hfail, Bool.false_eq_true, if_false]
  rw [hs]
  simp

/-- Witness for C3: two patches succeed, the third fails, the fourth is a
tail that is never consulted; the trace is the two applied patches and the
error names the failing file. -/
theorem stitchset_apply_stops_at_first_failure_witness :
    applyAllTrace (fun _ (d : Nat) => (d + 1, decide (d < 2)))
        ([Stitch.patch "001-a.patch".data, Stitch.patch "002-b.patch".data]
          ++ Stitch.patch "003-c.patch".data :: [Stitch.sgRule "004-d.yaml".data]) 0
      = ([Stitch.patch "001-a.patch".data, Stitch.patch "002-b.patch".data], 3,
         some (StitchError.patchFailed "003-c.patch".data)) :=
  stitchset_apply_stops_at_first_failure (fun _ (d : Nat) => (d + 1, decide (d < 2)))
    [Stitch.patch "001-a.patch".data, Stitch.patch "002-b.patch".data]
    [Stitch.sgRule "004-d.yaml".data] (Stitch.patch "003-c.patch".data) 0 2
    (by decide) (by decide)

/-!
Helper lemmas about the discovery model: the ordering is total and
transitive, the insertion sort sorts, and classification preserves paths.
-/

theorem strLe_total : ∀ a b : Str, (strLe a b || strLe b a) = true := by
  intro a
  induction a with
  | nil => intro b; simp [strLe]
  | cons x s ih =>
    intro b
    cases b with
    | nil => simp [strLe]
    | cons y t =>
      by_cases hxy : x = y
      · subst hxy
        simpa [strLe] using ih t
      · have hyx : ¬ y = x := fun h => hxy h.symm
        simp only [strLe, if_neg hxy, if_neg hyx]
        rcases lt_or_gt_of_ne (show x ≠ y from hxy) with h | h
        · simp [h]
        · simp [h]

theorem strLe_trans :
    ∀ a b c : Str, strLe a b = true → strLe b c = true → strLe a c = true := by
  intro a
  induction a with
  | nil => intro b c _ _; simp [strLe]
  | cons x s ih =>
    intro b c hab hbc
    cases b with
    | nil => simp [strLe] at hab
    | cons y t =>
      cases c with
      | nil => simp [strLe] at hbc
      | cons z u =>
        simp only [strLe] at hab hbc ⊢
        by_cases hxy : x = y
        · subst hxy
          rw [if_pos rfl] at hab
          by_cases hyz : x = z
          · subst hyz
            rw [if_pos rfl] at hbc ⊢
            exact ih t u hab hbc
          · rw [if_neg hyz] at hbc ⊢
            exact hbc
        · rw [if_neg hxy] at hab
          have hxylt : x < y := by simpa using hab
          by_cases hyz : y = z
          · subst hyz
            rw [if_neg hxy]
            simpa using hxylt
          · rw [if_neg hyz] at hbc
            have hyzlt : y < z := by simpa using hbc
            have hxz : x < z := lt_trans hxylt hyzlt
            rw [if_neg (ne_of_lt hxz)]
            simpa using hxz

theorem mem_insertSorted {α : Type} (le : α → α → Bool) (a x : α) :
    ∀ l : List α, x ∈ insertSorted le a l ↔ x = a ∨ x ∈ l := by
  intro l
  induction l with
  | nil => simp [insertSorted]
  | cons b l ih =>
    simp only [insertSorted]
    by_cases h : le a b = true
    · rw [if_pos h]
      simp only [List.mem_cons]
    · rw [if_neg h]
      simp only [List.mem_cons, ih]
      tauto

theorem pairwise_insertSorted {α : Type} (le : α → α → Bool)
    (htrans : ∀ a b c, le a b = true → le b c = true → le a c = true)
    (htotal : ∀ a b, (le a b || le b a) = true) (a : α) :
    ∀ l : List α, List.Pairwise (fun x y => le x y = true) l →
      List.Pairwise (fun x y => le x y = true) (insertSorted le a l) := by
  intro l
  induction l with
  | nil => intro _; simp [insertSorted]
  | cons b l ih =>
    intro h
    rw [List.pairwise_cons] at h
    obtain ⟨hb, hl⟩ := h
    simp only [insertSorted]
    by_cases hab : le a b = true
    · rw [if_pos hab]
      refine List.Pairwise.cons ?_ (List.Pairwise.cons hb hl)
      intro x hx
      rcases List.mem_cons.mp hx with hxb | hx
      · subst hxb
        exact hab
      · exact htrans a b x hab (hb x hx)
    · rw [if_neg hab]
      refine List.Pairwise.cons ?_ (ih hl)
      intro x hx
      rcases (mem_insertSorted le a x l).mp hx with hxa | hx
      · subst hxa
        have ht := htotal x b
        rw [Bool.or_eq_true] at ht
        rcases ht with ht | ht
        · exact absurd ht hab
        · exact ht
      · exact hb x hx

theorem pairwise_sortBy {α : Type} (le : α → α → Bool)
    (htrans : ∀ a b c, le a b = true → le b c = true → le a c = true)
    (htotal : ∀ a b, (le a b || le b a) = true) :
    ∀ l : List α, List.Pairwise (fun x y => le x y = true) (sortBy le l) := by
  intro l
  induction l with
  | nil => simp [sortBy]
  | cons a l ih => exact pairwise_insertSorted le htrans htotal a _ ih

theorem fromPath_file {p : Str} {s : Stitch} (h : Stitch.fromPath p = some s) :
    s.file = p := by
  unfold Stitch.fromPath at h
  split at h
  · split at h
    · cases h
      rfl
    · split at h
      · cases h
        rfl
      · cases h
  · cases h

theorem discoverLoop_mem {base : Str} :
    ∀ {l : List SubdirEntry} {m : List (Str × List Stitch)} {pkg : Str} {ms : List Stitch},
      discoverLoop base l = .ok m → (pkg, ms) ∈ m →
      ms ≠ [] ∧ ∃ e ∈ l, ∃ files, e.name = pkg ∧ e.filesRes = .ok files
        ∧ ms = entryStitches base pkg files := by
  intro l
  induction l with
  | nil =>
    intro m pkg ms h hm
    simp only [discoverLoop] at h
    cases h
    simp at hm
  | cons e rest ih =>
    intro m pkg ms h hm
    simp only [discoverLoop] at h
    split at h
    · cases h
    · obtain ⟨hne, e2, he2, rest2⟩ := ih h hm
      exact ⟨hne, e2, List.mem_cons_of_mem _ he2, rest2⟩
    · rename_i hd
      split at h
      · cases h
      · rename_i files hf
        split at h
        · cases h
        · rename_i m2 hr
          split at h
          · cases h
            obtain ⟨hne, e2, he2, rest2⟩ := ih hr hm
            exact ⟨hne, e2, List.mem_cons_of_mem _ he2, rest2⟩
          · rename_i hie
            cases h
            rcases List.mem_cons.mp hm with heq | hm2
            · cases heq
              refine ⟨?_, e, List.mem_cons_self _ _, files, rfl, hf, rfl⟩
              intro hnil
              rw [hnil] at hie
              exact hie rfl
            · obtain ⟨hne, e2, he2, rest2⟩ := ih hr hm2
              exact ⟨hne, e2, List.mem_cons_of_mem _ he2, rest2⟩

theorem discoverAll_mem {d : StitchesDir} {m : List (Str × List Stitch)} {pkg : Str}
    {ms : List Stitch} (hok : discoverAll d = .ok m) (hmem : (pkg, ms) ∈ m) :
    ms ≠ [] ∧ ∃ files, ms = entryStitches d.path pkg files := by
  unfold discoverAll at hok
  split at hok
  · split at hok
    · cases hok
    · obtain ⟨hne, e, _, files, hname, _, hms⟩ := discoverLoop_mem hok hmem
      exact ⟨hne, files, hms⟩
  · cases hok
    simp at hmem

/-- C5: the manifest produced by discovery never maps a package name to an
empty modification sequence; a package subdirectory with no recognized file
yields no entry at all, so every recorded sequence is non-empty. -/
theorem discovery_never_records_empty_set (d : StitchesDir)
    (m : List (Str × List Stitch)) (pkg : Str) (ms : List Stitch)
    (hok : discoverAll d = .ok m) (hmem : (pkg, ms) ∈ m) : ms ≠ [] :=
  (discoverAll_mem hok hmem).1

/-- Witness for C5: a package directory holding one patch file and one
unrecognized file yields a manifest whose only entry is non-empty. -/
theorem discovery_never_records_empty_set_witness :
    [Stitch.patch "/ws/stitches/config/001-fix.patch".data] ≠ ([] : List Stitch) :=
  discovery_never_records_empty_set
    ⟨"/ws/stitches".data, true,
      .ok [⟨"config".data, .ok true, .ok ["001-fix.patch".data, "notes.txt".data]⟩]⟩
    [("config".data, [Stitch.patch "/ws/stitches/config/001-fix.patch".data])]
    "config".data [Stitch.patch "/ws/stitches/config/001-fix.patch".data]
    rfl (by decide)

/-- C7: classification is by extension alone — .patch gives a DiffPatch,
.yaml or .yml gives a StructuralRule, any other extension (or none) is
silently skipped — and every per-package sequence in a discovered manifest
consists of stitches classified from their own source paths, ordered
lexicographically by source file path (within one package directory this is
the lexicographic order of the file names, since all paths share the
directory prefix). -/
theorem discovery_classification_and_ordering :
    (∀ p, extension p = some "patch".data → Stitch.fromPath p = some (Stitch.patch p))
    ∧ (∀ p, extension p = some "yaml".data ∨ extension p = some "yml".data →
        Stitch.fromPath p = some (Stitch.sgRule p))
    ∧ (∀ p e, extension p = some e →
        e ≠ "patch".data → e ≠ "yaml".data → e ≠ "yml".data → Stitch.fromPath p = none)
    ∧ (∀ p, extension p = none → Stitch.fromPath p = none)
    ∧ (∀ (d : StitchesDir) (m : List (Str × List Stitch)) (pkg : Str) (ms : List Stitch),
        discoverAll d = .ok m → (pkg, ms) ∈ m →
        (∀ s ∈ ms, Stitch.fromPath s.file = some s)
        ∧ List.Pairwise (fun s t => strLe s.file t.file = true) ms) := by
  refine ⟨?_, ?_, ?_, ?_, ?_⟩
  · intro p hp
    unfold Stitch.fromPath
    rw [hp]
    rfl
  · intro p hp
    rcases hp with hp | hp
    · unfold Stitch.fromPath
      rw [hp]
      rfl
    · unfold Stitch.fromPath
      rw [hp]
      rfl
  · intro p e hp h1 h2 h3
    unfold Stitch.fromPath
    rw [hp]
    have h23 : ¬ (e = "yaml".data ∨ e = "yml".data) := by tauto
    show (if e = "patch".data then some (Stitch.patch p)
      else if e = "yaml".data ∨ e = "yml".data then some (Stitch.sgRule p) else none) = none
    rw [if_neg h1, if_neg h23]
  · intro p hp
    unfold Stitch.fromPath
    rw [hp]
  · intro d m pkg ms hok hmem
    obtain ⟨_, files, hms⟩ := discoverAll_mem hok hmem
    subst hms
    constructor
    · intro s hs
      unfold entryStitches at hs
      obtain ⟨q, _, hfq⟩ := List.mem_filterMap.mp hs
      rw [fromPath_file hfq]
      exact hfq
    · unfold entryStitches
      have hp := pairwise_sortBy strLe strLe_trans strLe_total
        ((files.map (fun f => d.path ++ '/' :: pkg ++ '/' :: f)))
      refine List.pairwise_filterMap.mpr (hp.imp ?_)
      intro a b hab s hs t ht
      rw [Option.mem_def] at hs ht
      rw [fromPath_file hs, fromPath_file ht]
      exact hab

/-- Witness for C7: a patch file classifies as a DiffPatch, and a package
directory listed with its yaml rule before its patch file yields the
sequence re-ordered by file name, each entry classified from its path. -/
theorem discovery_classification_and_ordering_witness :
    Stitch.fromPath "/ws/stitches/config/001-fix.patch".data
      = some (Stitch.patch "/ws/stitches/config/001-fix.patch".data)
    ∧ ((∀ s ∈ [Stitch.patch "/ws/stitches/config/001-fix.patch".data,
          Stitch.sgRule "/ws/stitches/config/002-rename.yaml".data],
          Stitch.fromPath s.file = some s)
        ∧ List.Pairwise (fun s t => strLe s.file t.file = true)
            [Stitch.patch "/ws/stitches/config/001-fix.patch".data,
             Stitch.sgRule "/ws/stitches/config/002-rename.yaml".data]) :=
  ⟨discovery_classification_and_ordering.1 "/ws/stitches/config/001-fix.patch".data
      (by decide),
    discovery_classification_and_ordering.2.2.2.2
      ⟨"/ws/stitches".data, true,
        .ok [⟨"config".data, .ok true,
          .ok ["002-rename.yaml".data, "001-fix.patch".data]⟩]⟩
      [("config".data, [Stitch.patch "/ws/stitches/config/001-fix.patch".data,
          Stitch.sgRule "/ws/stitches/config/002-rename.yaml".data])]
      "config".data
      [Stitch.patch "/ws/stitches/config/001-fix.patch".data,
        Stitch.sgRule "/ws/stitches/config/002-rename.yaml".data]
      rfl (by decide)⟩

/-- C9: when the modifications directory does not exist or is not a
directory, discovery succeeds with an empty manifest — whatever reading it
would have produced — and an I/O failure can only be reported when the
directory does exist. -/
theorem discovery_missing_dir_is_empty_manifest (d : StitchesDir) :
    (d.isDir = false → discoverAll d = .ok [])
    ∧ (∀ u : Unit, discoverAll d = .error u → d.isDir = true) := by
  constructor
  · intro h
    unfold discoverAll
    rw [h]
    rfl
  · intro u h
    cases hd : d.isDir with
    | true => rfl
    | false =>
      unfold discoverAll at h
      rw [hd] at h
      simp at h

/-- Witness for C9: a non-directory stitches path whose reads would all
fail still discovers an empty manifest. -/
theorem discovery_missing_dir_is_empty_manifest_witness :
    discoverAll ⟨"/ws/stitches".data, false, .error ()⟩ = .ok [] :=
  (discovery_missing_dir_is_empty_manifest ⟨"/ws/stitches".data, false, .error ()⟩).1 rfl

/-- C6: in WRAP mode, when no package name is supplied, or when the current
package's name is absent from the deserialized manifest, the invocation is a
pure passthrough that execs the unmodified compiler on the original
arguments; by the shape of the action no staged directory is created and no
modification is applied. -/
theorem wrapper_passthrough_when_absent
    (parse : Str → Option (List (Str × List Stitch))) (env : WrapperEnv)
    (rustcArgs : List Str) :
    (env.cargoPkgName = none →
      runWrapper parse env rustcArgs = .execUnmodified rustcArgs)
    ∧ (∀ pkg manifestDir workspaceRoot manifestJson manifest,
        env = ⟨some pkg, some manifestDir, some workspaceRoot, some manifestJson⟩ →
        parse manifestJson = some manifest →
        lookupManifest pkg manifest = none →
        runWrapper parse env rustcArgs = .execUnmodified rustcArgs) := by
  constructor
  · intro h
    unfold runWrapper
    rw [h]
  · intro pkg manifestDir workspaceRoot manifestJson manifest henv hparse hlook
    subst henv
    unfold runWrapper
    simp only [hparse, hlook]

/-- Witness for C6: a package present in the environment but absent from an
empty manifest execs the compiler unmodified. -/
theorem wrapper_passthrough_when_absent_witness :
    runWrapper (fun _ => some [])
        ⟨some "foo".data, some "/ws/foo".data, some "/ws".data, some "\x7b\x7d".data⟩
        ["--edition=2021".data]
      = .execUnmodified ["--edition=2021".data] :=
  (wrapper_passthrough_when_absent (fun _ => some [])
      ⟨some "foo".data, some "/ws/foo".data, some "/ws".data, some "\x7b\x7d".data⟩
      ["--edition=2021".data]).2
    "foo".data "/ws/foo".data "/ws".data "\x7b\x7d".data [] rfl rfl rfl

/-- C8: in WRAP mode with a package name (and the ambient cargo manifest
dir) present, a missing workspace-root variable, or a missing
stitch-manifest variable, makes the wrapper fail with MissingEnvVar naming
exactly that variable; by the shape of the action neither staging nor
patching nor any compiler invocation is attempted. -/
theorem wrapper_missing_coordination_state_fatal
    (parse : Str → Option (List (Str × List Stitch))) (env : WrapperEnv)
    (rustcArgs : List Str) (pkg manifestDir : Str)
    (hpkg : env.cargoPkgName = some pkg)
    (hmd : env.cargoManifestDir = some manifestDir) :
    (env.workspaceRoot = none →
      runWrapper parse env rustcArgs = .missingEnvVar .workspaceRootVar)
    ∧ (∀ workspaceRoot, env.workspaceRoot = some workspaceRoot →
        env.stitchManifestJson = none →
        runWrapper parse env rustcArgs = .missingEnvVar .stitchManifestVar) := by
  constructor
  · intro h
    unfold runWrapper
    rw [hpkg, hmd, h]
  · intro workspaceRoot hw hj
    unfold runWrapper
    rw [hpkg, hmd, hw, hj]

/-- Witness for C8 in both shapes: a missing workspace root, and a missing
manifest variable with the root present. -/
theorem wrapper_missing_coordination_state_fatal_witness :
    runWrapper (fun _ => some [])
        ⟨some "foo".data, some "/ws/foo".data, none, some "\x7b\x7d".data⟩ []
      = .missingEnvVar .workspaceRootVar
    ∧ runWrapper (fun _ => some [])
        ⟨some "foo".data, some "/ws/foo".data, some "/ws".data, none⟩ []
      = .missingEnvVar .stitchManifestVar :=
  ⟨(wrapper_missing_coordination_state_fatal (fun _ => some [])
      ⟨some "foo".data, some "/ws/foo".data, none, some "\x7b\x7d".data⟩ []
      "foo".data "/ws/foo".data rfl rfl).1 rfl,
    (wrapper_missing_coordination_state_fatal (fun _ => some [])
      ⟨some "foo".data, some "/ws/foo".data, some "/ws".data, none⟩ []
      "foo".data "/ws/foo".data rfl rfl).2 "/ws".data rfl rfl⟩

/-!
Helper lemmas about the staging model.
-/

theorem subtree_append (d : FPath) (a b : FileSystem) :
    subtree d (a ++ b) = subtree d a ++ subtree d b :=
  List.filterMap_append a b _

theorem subtree_removeDirAll_self (d : FPath) (fs : FileSystem) :
    subtree d (removeDirAll d fs) = [] := by
  rw [subtree, List.filterMap_eq_nil_iff]
  intro e he
  rw [removeDirAll] at he
  have hnp := (List.mem_filter.mp he).2
  rw [Bool.not_eq_true'] at hnp
  simp [subEntry, hnp]

theorem not_prefix_under {src dst p : FPath} (h1 : ¬ dst <+: src) (h2 : ¬ src <+: dst)
    (hp : src <+: p) : ¬ dst <+: p := by
  intro hd
  rcases List.prefix_or_prefix_of_prefix hp hd with h | h
  · exact h2 h
  · exact h1 h

theorem staged_subtree_eq (src dst : FPath) (h1 : ¬ dst <+: src) (h2 : ¬ src <+: dst) :
    ∀ fs : FileSystem,
      subtree dst ((removeDirAll dst fs).filterMap (copyEntry src dst))
        = (subtree src fs).filterMap keepEntry := by
  intro fs
  induction fs with
  | nil => rfl
  | cons e fs ih =>
    by_cases dp : dst.isPrefixOf e.1 = true
    · have hr : removeDirAll dst (e :: fs) = removeDirAll dst fs := by
        rw [removeDirAll, removeDirAll, List.filter_cons]
        simp [dp]
      have hsp : src.isPrefixOf e.1 = false := by
        cases hq : src.isPrefixOf e.1 with
        | false => rfl
        | true =>
          exact absurd (isPrefixOf_true_iff.mp dp)
            (not_prefix_under h1 h2 (isPrefixOf_true_iff.mp hq))
      have hse : subEntry src e = none := by
        unfold subEntry
        rw [if_neg (by simp [hsp])]
      have hsub : subtree src (e :: fs) = subtree src fs := by
        rw [subtree, subtree]
        exact List.filterMap_cons_none hse
      rw [hr, hsub]
      exact ih
    · have dpf : dst.isPrefixOf e.1 = false := by
        cases hq : dst.isPrefixOf e.1 with
        | false => rfl
        | true => exact absurd hq dp
      have hr : removeDirAll dst (e :: fs) = e :: removeDirAll dst fs := by
        rw [removeDirAll, removeDirAll, List.filter_cons]
        simp [dpf]
      rw [hr]
      by_cases sp : src.isPrefixOf e.1 = true
      · obtain ⟨t, ht⟩ := isPrefixOf_true_iff.mp sp
        have hdrop : e.1.drop src.length = t := by
          rw [← ht, List.drop_left]
        have hse : subEntry src e = some (t, e.2) := by
          unfold subEntry
          rw [if_pos sp, hdrop]
        have hsub : subtree src (e :: fs) = (t, e.2) :: subtree src fs := by
          rw [subtree, subtree]
          exact List.filterMap_cons_some hse
        rw [hsub]
        by_cases se : src = e.1
        · have ht0 : t = [] := by
            have hx := ht
            rw [← se] at hx
            simpa using hx.symm
          have hce : copyEntry src dst e = none := by
            unfold copyEntry
            rw [if_neg (fun hc => hc.2 se)]
          have hke : keepEntry (t, e.2) = none := by
            unfold keepEntry
            rw [if_neg (fun hc => hc.1 ht0)]
          rw [subtree, List.filterMap_cons_none hce, List.filterMap_cons_none hke]
          rw [subtree] at ih
          exact ih
        · have tne : t ≠ [] := by
            intro hteq
            rw [hteq, List.append_nil] at ht
            exact se ht
          by_cases ha : t.any excludedEntryName = true
          · have hce : copyEntry src dst e = none := by
              unfold copyEntry
              rw [if_pos ⟨sp, se⟩, hdrop, if_pos ha]
            have hke : keepEntry (t, e.2) = none := by
              unfold keepEntry
              rw [if_neg (fun hc => by rw [ha] at hc; exact Bool.noConfusion hc.2)]
            rw [subtree, List.filterMap_cons_none hce, List.filterMap_cons_none hke]
            rw [subtree] at ih
            exact ih
          · have haf : t.any excludedEntryName = false := by
              cases hq : t.any excludedEntryName with
              | false => rfl
              | true => exact absurd hq ha
            have hce : copyEntry src dst e = some (dst ++ t, e.2) := by
              unfold copyEntry
              rw [if_pos ⟨sp, se⟩, hdrop, if_neg (by simp [haf])]
            have hde : subEntry dst (dst ++ t, e.2) = some (t, e.2) := by
              unfold subEntry
              rw [if_pos (isPrefixOf_true_iff.mpr (List.prefix_append dst t))]
              simp [List.drop_left]
            have hke : keepEntry (t, e.2) = some (t, e.2) := by
              unfold keepEntry
              rw [if_pos ⟨tne, haf⟩]
            rw [subtree, List.filterMap_cons_some hce, List.filterMap_cons_some hde,
              List.filterMap_cons_some hke]
            rw [subtree] at ih
            rw [ih]
      · have spf : src.isPrefixOf e.1 = false := by
          cases hq : src.isPrefixOf e.1 with
          | false => rfl
          | true => exact absurd hq sp
        have hce : copyEntry src dst e = none := by
          unfold copyEntry
          rw [if_neg (fun hc => by rw [spf] at hc; exact Bool.noConfusion hc.1)]
        have hse : subEntry src e = none := by
          unfold subEntry
          rw [if_neg (by simp [spf])]
        have hsub : subtree src (e :: fs) = subtree src fs := by
          rw [subtree, subtree]
          exact List.filterMap_cons_none hse
        rw [hsub, subtree, List.filterMap_cons_none hce]
        rw [subtree] at ih
        exact ih

/-- C4: whenever the wrapper decides to patch a package, staging is from
scratch: the staged destination subtree after remove-then-copy is exactly
the copyable part of the package's source subtree (its proper relative
paths with no excluded build-output or version-control component), with no
dependence on what the destination held before; in particular two
filesystems agreeing on the source subtree stage to identical destination
subtrees, so a previous staged copy is never incrementally merged. -/
theorem staging_always_from_scratch (src dst : FPath) (fs : FileSystem)
    (h1 : ¬ dst <+: src) (h2 : ¬ src <+: dst) :
    subtree dst (stageDir src dst fs) = (subtree src fs).filterMap keepEntry
    ∧ ∀ gs : FileSystem, subtree src gs = subtree src fs →
        subtree dst (stageDir src dst gs) = subtree dst (stageDir src dst fs) := by
  have key : ∀ hs : FileSystem,
      subtree dst (stageDir src dst hs) = (subtree src hs).filterMap keepEntry := by
    intro hs
    rw [stageDir, copyDirRecursive, subtree_append, subtree_removeDirAll_self,
      List.nil_append]
    exact staged_subtree_eq src dst h1 h2 hs
  refine ⟨key fs, ?_⟩
  intro gs hgs
  rw [key gs, key fs, hgs]

/-- Witness for C4: a package with a source file, a stale build-output file
below it and a leftover staged copy from an earlier build stages to exactly
its one copyable source file; the leftover is gone and the build output is
skipped. -/
theorem staging_always_from_scratch_witness :
    subtree ["target".data, "cargo-stitch".data, "crate-a".data]
        (stageDir ["crate-a".data] ["target".data, "cargo-stitch".data, "crate-a".data]
          [(["crate-a".data, "src".data, "lib.rs".data], "hello".data),
           (["crate-a".data, "target".data, "junk".data], "stale-build".data),
           (["target".data, "cargo-stitch".data, "crate-a".data, "old.rs".data], "old".data),
           (["README.md".data], "readme".data)])
      = [(["src".data, "lib.rs".data], "hello".data)] :=
  ((staging_always_from_scratch ["crate-a".data]
      ["target".data, "cargo-stitch".data, "crate-a".data]
      [(["crate-a".data, "src".data, "lib.rs".data], "hello".data),
       (["crate-a".data, "target".data, "junk".data], "stale-build".data),
       (["target".data, "cargo-stitch".data, "crate-a".data, "old.rs".data], "old".data),
       (["README.md".data], "readme".data)]
      (by decide) (by decide)).1).trans (by decide)
